import Mathlib

/-!
# raw_socket.c: capture of link-layer frames, written length-prefixed to stdout

A shallow embedding of `main` of `src/raw_socket.c`.

The program talks to its environment through library calls. Each call the
program makes is recorded, in order, in a trace of `Event`s; what the
environment answers is an input of the model:

* `SetupEnv` holds the results of `socket`, `ioctl(SIOCGIFINDEX)` and `bind`;
* a `Step` holds what the environment answers during one pass of the
  `while (1)` loop: the result of `recvfrom`, the content of `buffer` after
  it, and the results of the two `fwrite` and of `fflush`.

The loop never ends, so a run is driven by a finite list of `Step`s: when the
list is used up the process is waiting in `recvfrom` (`Status.running`).

Machine integers are `Nat` / `Int` with the conversions of the C code made
explicit (`toUInt32`, `toInt`); the byte order of the host is a parameter.
-/

namespace RawSocket

/-! ## Bytes, integers, byte order -/

/-- An `unsigned char`. -/
abbrev Byte := Fin 256

/-- The byte with value `x mod 256`. -/
def byteOf (x : Nat) : Byte := ⟨x % 256, Nat.mod_lt x (by decide)⟩

/-- Byte order of the host. -/
inductive Endian where
  | little
  | big
  deriving DecidableEq, Repr

/-- Conversion of a signed integer (here `ssize_t`) to `uint32_t`: reduction modulo `2^32`. -/
def toUInt32 (z : Int) : Nat := (z % 4294967296).toNat

/-- Conversion of a `uint32_t` to `int` (32 bits, two's complement). -/
def toInt (x : Nat) : Int :=
  if x % 4294967296 < 2147483648 then ((x % 4294967296 : Nat) : Int)
  else ((x % 4294967296 : Nat) : Int) - 4294967296

/-- Conversion of a positive `ssize_t` to `size_t`. -/
def toSizeT (z : Int) : Nat := (z % 18446744073709551616).toNat

/-- Reversal of the four bytes of a `uint32_t`. -/
def bswap32 (x : Nat) : Nat :=
  (x % 256) * 16777216 + (x / 256 % 256) * 65536 + (x / 65536 % 256) * 256 + (x / 16777216 % 256)

/-- Reversal of the two bytes of a `uint16_t`. -/
def bswap16 (x : Nat) : Nat :=
  (x % 256) * 256 + (x / 256 % 256)

/-- The function `htonl`: host to network (big-endian) order on `uint32_t`. -/
def htonl (e : Endian) (x : Nat) : Nat :=
  match e with
  | Endian.little => bswap32 (x % 4294967296)
  | Endian.big => x % 4294967296

/-- The function `htons`: host to network (big-endian) order on `uint16_t`. -/
def htons (e : Endian) (x : Nat) : Nat :=
  match e with
  | Endian.little => bswap16 (x % 65536)
  | Endian.big => x % 65536

/-- The `sizeof(int) = 4` bytes of an `int` as they lie in memory on the host. -/
def objectBytes (e : Endian) (n : Int) : List Byte :=
  let u := toUInt32 n
  match e with
  | Endian.little => [byteOf u, byteOf (u / 256), byteOf (u / 65536), byteOf (u / 16777216)]
  | Endian.big => [byteOf (u / 16777216), byteOf (u / 65536), byteOf (u / 256), byteOf u]

/-! ## Constants of the headers -/

/-- The constant `AF_PACKET` of `<sys/socket.h>`. -/
def AF_PACKET : Nat := 17

/-- The constant `SOCK_RAW` of `<sys/socket.h>`. -/
def SOCK_RAW : Nat := 3

/-- The constant `ETH_P_ALL` of `<linux/if_ether.h>`: every protocol. -/
def ETH_P_ALL : Nat := 3

/-- The constant `IFNAMSIZ` of `<net/if.h>`. -/
def IFNAMSIZ : Nat := 16

/-- The request `SIOCGIFINDEX` of `<sys/ioctl.h>`. -/
def SIOCGIFINDEX : Nat := 35123

/-- The value of `sizeof(buffer)` for `unsigned char buffer[65536]`. -/
def sizeof_buffer : Nat := 65536

/-! ## Events and process state -/

/-- A library call made by the program, with the arguments that matter. -/
inductive Event where
  | socket (domain type protocol : Nat)
  | ioctl (fd : Int) (request : Nat) (ifr_name : String)
  | bind (fd : Int) (sll_family sll_protocol : Nat) (sll_ifindex : Int)
  | recvfrom (fd : Int) (size : Nat) (flags : Nat)
  | fwrite (bytes : List Byte)
  | fflush
  | perror (s : String)
  | exit (status : Int)
  | close (fd : Int)
  deriving DecidableEq, Repr

/-- Whether the process is still running, or has ended with an exit status. -/
inductive Status where
  | running
  | exited (code : Int)
  deriving DecidableEq, Repr

/-- State of the process: the calls made so far, the variables `sockfd` and
`buffer`, and the status. -/
structure Proc where
  trace : List Event
  sockfd : Int
  buffer : List Byte
  status : Status
  deriving DecidableEq, Repr

/-- Results of the three setup calls. `ifindex` is what a successful
`ioctl(SIOCGIFINDEX)` stores in `ifr.ifr_ifindex`. -/
structure SetupEnv where
  socketRet : Int
  ioctlRet : Int
  ifindex : Int
  bindRet : Int
  deriving DecidableEq, Repr

/-- What the environment answers during one pass of the loop: `len` is the
result of `recvfrom`, `buf` the content of `buffer` after that call, and
`fwriteLenRet`, `fwriteFrameRet`, `fflushRet` the results of the two `fwrite`
and of `fflush` (consulted only when the pass gets that far). -/
structure Step where
  len : Int
  buf : List Byte
  fwriteLenRet : Nat
  fwriteFrameRet : Nat
  fflushRet : Int
  deriving DecidableEq, Repr

/-- How the body of a loop ends: at its last statement, by `continue`, or by `break`. -/
inductive Ctl where
  | normal
  | continue_
  | break_
  deriving DecidableEq, Repr

/-! ## The stdout stream, read off a trace -/

/-- The bytes one event hands to stdout. -/
def Event.bytes : Event → List Byte
  | Event.fwrite bs => bs
  | _ => []

/-- The bytes handed to stdout by a trace, in order. -/
def written (t : List Event) : List Byte :=
  t.flatMap Event.bytes

/-- The bytes waiting in the stdout buffer after one more event: `fwrite` adds
its bytes to them, `fflush` leaves none. -/
def Event.pend (acc : List Byte) : Event → List Byte
  | Event.fwrite bs => acc ++ bs
  | Event.fflush => []
  | _ => acc

/-- The bytes handed to stdout after the last `fflush` of a trace: those a
downstream reader is not yet sure to see. -/
def unflushed (t : List Event) : List Byte :=
  t.foldl Event.pend []

/-- The number of `recvfrom` calls of a trace. -/
def recvCount (t : List Event) : Nat :=
  t.countP (fun ev => match ev with
    | Event.recvfrom _ _ _ => true
    | _ => false)

/-! ## The calls -/

/-- Record a call. -/
def Proc.call (s : Proc) (ev : Event) : Proc :=
  { s with trace := s.trace ++ [ev] }

/-- The call `perror(msg)`. -/
def perror (s : Proc) (msg : String) : Proc :=
  s.call (Event.perror msg)

/-- The call `exit(code)`: the process ends. -/
def exit (s : Proc) (code : Int) : Proc :=
  { s.call (Event.exit code) with status := Status.exited code }

/-- The call `fwrite(ptr, size, nmemb, stdout)`, where `bytes` are the
`size * nmemb` bytes at `ptr`. -/
def fwrite (s : Proc) (bytes : List Byte) : Proc :=
  s.call (Event.fwrite bytes)

/-- The call `fflush(stdout)`. -/
def fflush (s : Proc) : Proc :=
  s.call Event.fflush

/-- The call `strncpy(dst, src, n)` into a zeroed `dst`: at most `n` characters of `src`. -/
def strncpy (src : String) (n : Nat) : String :=
  String.mk (src.data.take n)

/-! ## The loop -/

/-- Body of the `while (1)` loop (lines 49 to 56). -/
def loopBody (e : Endian) (s : Proc) (i : Step) : Ctl × Proc :=
  -- ssize_t len = recvfrom(sockfd, buffer, sizeof(buffer), 0, NULL, NULL);
  let s := { s.call (Event.recvfrom s.sockfd sizeof_buffer 0) with buffer := i.buf }
  let len : Int := i.len
  -- if (len <= 0) continue;
  if len ≤ 0 then (Ctl.continue_, s)
  else
    -- int n = htonl(len);
    let n : Int := toInt (htonl e (toUInt32 len))
    -- fwrite(&n, sizeof(n), 1, stdout);
    let s := fwrite s (objectBytes e n)
    -- fwrite(buffer, 1, len, stdout);
    let s := fwrite s (s.buffer.take (toSizeT len))
    -- fflush(stdout);
    let s := fflush s
    (Ctl.normal, s)

/-- A `while (cond) body` loop whose body makes one blocking receive per
pass. The result is `(true, s)` when the loop has been left (the condition
is zero, or the body ended by `break`), and `(false, s)` when the steps are
used up and the process waits in the receive of the next pass. -/
def whileLoop (cond : Int) (body : Proc → Step → Ctl × Proc) : Proc → List Step → Bool × Proc
  | s, [] => if cond = 0 then (true, s) else (false, s)
  | s, i :: is =>
    if cond = 0 then (true, s)
    else
      match body s i with
      | (Ctl.break_, s') => (true, s')
      | (_, s') => whileLoop cond body s' is

/-- The capture loop of `main` (lines 48 to 57), started in state `s`. -/
def captureLoop (e : Endian) (s : Proc) (steps : List Step) : Bool × Proc :=
  whileLoop 1 (loopBody e) s steps

/-! ## main -/

/-- The state in which `main` starts: nothing called yet, `buffer` holding `buf0`. -/
def start (buf0 : List Byte) : Proc :=
  { trace := [], sockfd := 0, buffer := buf0, status := Status.running }

/-- The function `main` of `raw_socket.c`. -/
def main (e : Endian) (env : SetupEnv) (buf0 : List Byte) (steps : List Step) : Proc :=
  let s := start buf0
  -- sockfd = socket(AF_PACKET, SOCK_RAW, htons(ETH_P_ALL));
  let s := { s.call (Event.socket AF_PACKET SOCK_RAW (htons e ETH_P_ALL)) with sockfd := env.socketRet }
  if s.sockfd < 0 then
    exit (perror s "socket") 1
  else
    -- strncpy(ifr.ifr_name, "tun0", IFNAMSIZ - 1);
    let ifr_name := strncpy "tun0" (IFNAMSIZ - 1)
    -- if (ioctl(sockfd, SIOCGIFINDEX, &ifr) < 0)
    let s := s.call (Event.ioctl s.sockfd SIOCGIFINDEX ifr_name)
    if env.ioctlRet < 0 then
      exit (perror s "SIOCGIFINDEX") 1
    else
      let ifr_ifindex := env.ifindex
      -- sll.sll_family = AF_PACKET; sll.sll_protocol = htons(ETH_P_ALL); sll.sll_ifindex = ifr.ifr_ifindex;
      let s := s.call (Event.bind s.sockfd AF_PACKET (htons e ETH_P_ALL) ifr_ifindex)
      if env.bindRet < 0 then
        exit (perror s "bind") 1
      else
        match captureLoop e s steps with
        | (false, s) => s
        | (true, s) =>
          -- close(sockfd); return 0;
          let s := s.call (Event.close s.sockfd)
          { s with status := Status.exited 0 }

/-- The three setup calls all succeed. -/
def SetupEnv.ok (env : SetupEnv) : Prop :=
  0 ≤ env.socketRet ∧ 0 ≤ env.ioctlRet ∧ 0 ≤ env.bindRet

instance (env : SetupEnv) : Decidable env.ok := by
  unfold SetupEnv.ok; infer_instance

/-! ## The wire format, in the words of the specification -/

/-- The field `uint32_be L`: `L` as an unsigned 4-byte big-endian integer. -/
def uint32_be (L : Nat) : List Byte :=
  [byteOf (L / 16777216), byteOf (L / 65536), byteOf (L / 256), byteOf L]

/-- Four bytes read as a big-endian unsigned integer. -/
def decode_uint32_be : List Byte → Option Nat
  | [a, b, c, d] => some (a.val * 16777216 + b.val * 65536 + c.val * 256 + d.val)
  | _ => none

/-- The Framed Record of a frame: `uint32_be length` followed by the `length` bytes. -/
def framedRecord (payload : List Byte) : List Byte :=
  uint32_be payload.length ++ payload

/-- The wire-format decoder with a bound on the number of records: read 4 bytes
as a big-endian unsigned `L`, take `L` bytes, repeat until the stream is
used up. `none` when the stream ends inside a record. -/
def decodeRecords : Nat → List Byte → Option (List (List Byte))
  | _, [] => some []
  | 0, _ :: _ => none
  | fuel + 1, a :: b :: c :: d :: rest =>
    match decode_uint32_be [a, b, c, d] with
    | some L =>
      if L ≤ rest.length then
        match decodeRecords fuel (rest.drop L) with
        | some recs => some (rest.take L :: recs)
        | none => none
      else none
    | none => none
  | _ + 1, _ => none

/-- The wire-format decoder. A record takes at least 4 bytes, so a stream of
`n` bytes holds at most `n` records. -/
def decodeStream (stream : List Byte) : Option (List (List Byte)) :=
  decodeRecords stream.length stream

/-- The frame of a pass whose receive result is positive: the first `len`
bytes of the buffer. -/
def Step.payload (i : Step) : List Byte :=
  i.buf.take i.len.toNat

/-! ## The receive call of the kernel -/

/-- What the kernel holds for the socket when a receive is made: an error, or a
queued frame. -/
inductive Arrival where
  | error
  | frame (bytes : List Byte)
  deriving DecidableEq, Repr

/-- Modelled from the spec: the kernel's receive call (`recvfrom` on a packet
socket with flags 0), which is not part of the repository. "Frames larger than
the capacity are truncated by the underlying receive call": at most `size`
bytes of the frame are copied to the start of the buffer and their number is
the result; an error gives -1 and leaves the buffer as it was. -/
def recvfrom (a : Arrival) (buffer : List Byte) (size : Nat) : Int × List Byte :=
  match a with
  | Arrival.error => (-1, buffer)
  | Arrival.frame bytes =>
    let n := min bytes.length size
    ((n : Int), bytes.take n ++ buffer.drop n)

/-! ## Auxiliary descriptions of a run -/

/-- The state after the passes `steps`, as long as no pass leaves the loop. -/
def runSteps (e : Endian) (s : Proc) (steps : List Step) : Proc :=
  steps.foldl (fun s i => (loopBody e s i).2) s

/-- The calls of one pass of the loop on socket `fd`. -/
def passEvents (e : Endian) (fd : Int) (i : Step) : List Event :=
  if i.len ≤ 0 then [Event.recvfrom fd sizeof_buffer 0]
  else [Event.recvfrom fd sizeof_buffer 0,
        Event.fwrite (objectBytes e (toInt (htonl e (toUInt32 i.len)))),
        Event.fwrite (i.buf.take (toSizeT i.len)),
        Event.fflush]

/-- The calls of a successful setup. -/
def setupEvents (e : Endian) (env : SetupEnv) : List Event :=
  [Event.socket AF_PACKET SOCK_RAW (htons e ETH_P_ALL),
   Event.ioctl env.socketRet SIOCGIFINDEX "tun0",
   Event.bind env.socketRet AF_PACKET (htons e ETH_P_ALL) env.ifindex]

/-- A buffer of `sizeof_buffer` bytes that starts with `bytes` and is zero after them. -/
def bufferOf (bytes : List Byte) : List Byte :=
  bytes ++ List.replicate (sizeof_buffer - bytes.length) 0

/-- A pass in which `recvfrom` gives `len` with `bytes` at the start of the
buffer, and the writes and the flush succeed. -/
def stepOf (len : Int) (bytes : List Byte) : Step :=
  { len := len, buf := bufferOf bytes, fwriteLenRet := 1, fwriteFrameRet := len.toNat,
    fflushRet := 0 }

/-! ## Arithmetic of the length field -/

theorem byteOf_congr {a b : Nat} (h : a % 256 = b % 256) : byteOf a = byteOf b := by
  unfold byteOf
  exact Fin.ext h

theorem byteOf_val (a : Nat) : (byteOf a).val = a % 256 := rfl

theorem compose_bytes (a b c d : Nat) (ha : a < 256) (hb : b < 256) (hc : c < 256) (hd : d < 256) :
    (a * 16777216 + b * 65536 + c * 256 + d) % 256 = d ∧
    (a * 16777216 + b * 65536 + c * 256 + d) / 256 % 256 = c ∧
    (a * 16777216 + b * 65536 + c * 256 + d) / 65536 % 256 = b ∧
    (a * 16777216 + b * 65536 + c * 256 + d) / 16777216 % 256 = a ∧
    (a * 16777216 + b * 65536 + c * 256 + d) < 4294967296 := by
  refine ⟨?_, ?_, ?_, ?_, ?_⟩ <;> omega

theorem toUInt32_toInt (x : Nat) (h : x < 4294967296) : toUInt32 (toInt x) = x := by
  unfold toUInt32 toInt
  split <;> omega

theorem toUInt32_of_nonneg (z : Int) (h0 : 0 ≤ z) (h1 : z < 4294967296) :
    toUInt32 z = z.toNat := by
  unfold toUInt32
  omega

theorem toSizeT_of_nonneg (z : Int) (h0 : 0 ≤ z) (h1 : z < 18446744073709551616) :
    toSizeT z = z.toNat := by
  unfold toSizeT
  omega

theorem htonl_lt (e : Endian) (x : Nat) : htonl e x < 4294967296 := by
  cases e
  · have h := compose_bytes (x % 4294967296 % 256) (x % 4294967296 / 256 % 256)
      (x % 4294967296 / 65536 % 256) (x % 4294967296 / 16777216 % 256)
      (Nat.mod_lt _ (by decide)) (Nat.mod_lt _ (by decide)) (Nat.mod_lt _ (by decide))
      (Nat.mod_lt _ (by decide))
    simpa [htonl, bswap32] using h.2.2.2.2
  · simp only [htonl]
    omega

/-- The bytes of `htonl x` as they lie in memory are the big-endian bytes of `x`,
whatever the byte order of the host. -/
theorem objectBytes_htonl (e : Endian) (x : Nat) (h : x < 4294967296) :
    objectBytes e (toInt (htonl e x)) = uint32_be x := by
  have hu : toUInt32 (toInt (htonl e x)) = htonl e x := toUInt32_toInt _ (htonl_lt e x)
  unfold objectBytes
  simp only [hu]
  cases e
  · have hx : x % 4294967296 = x := Nat.mod_eq_of_lt h
    have hc := compose_bytes (x % 256) (x / 256 % 256) (x / 65536 % 256) (x / 16777216 % 256)
      (Nat.mod_lt _ (by decide)) (Nat.mod_lt _ (by decide)) (Nat.mod_lt _ (by decide))
      (Nat.mod_lt _ (by decide))
    simp only [htonl, bswap32, uint32_be, hx]
    obtain ⟨h0, h1, h2, h3, _⟩ := hc
    have e0 := byteOf_congr (a := x % 256 * 16777216 + x / 256 % 256 * 65536
      + x / 65536 % 256 * 256 + x / 16777216 % 256) (b := x / 16777216) (by omega)
    have e1 := byteOf_congr (a := (x % 256 * 16777216 + x / 256 % 256 * 65536
      + x / 65536 % 256 * 256 + x / 16777216 % 256) / 256) (b := x / 65536) (by omega)
    have e2 := byteOf_congr (a := (x % 256 * 16777216 + x / 256 % 256 * 65536
      + x / 65536 % 256 * 256 + x / 16777216 % 256) / 65536) (b := x / 256) (by omega)
    have e3 := byteOf_congr (a := (x % 256 * 16777216 + x / 256 % 256 * 65536
      + x / 65536 % 256 * 256 + x / 16777216 % 256) / 16777216) (b := x) (by omega)
    rw [e0, e1, e2, e3]
  · have hx : x % 4294967296 = x := Nat.mod_eq_of_lt h
    simp only [htonl, uint32_be, hx]

theorem decode_uint32_be_encode (x : Nat) (h : x < 4294967296) :
    decode_uint32_be (uint32_be x) = some x := by
  simp only [uint32_be, decode_uint32_be, byteOf_val, Option.some.injEq]
  omega

/-! ## One pass of the loop -/

theorem loopBody_eq (e : Endian) (s : Proc) (i : Step) :
    loopBody e s i =
      (if i.len ≤ 0 then Ctl.continue_ else Ctl.normal,
       { s with trace := s.trace ++ passEvents e s.sockfd i, buffer := i.buf }) := by
  unfold loopBody passEvents
  by_cases h : i.len ≤ 0
  · simp [h, Proc.call]
  · simp [h, Proc.call, fwrite, fflush]

theorem loopBody_ctl (e : Endian) (s : Proc) (i : Step) :
    (loopBody e s i).1 ≠ Ctl.break_ := by
  rw [loopBody_eq]
  by_cases h : i.len ≤ 0 <;> simp [h]

theorem loopBody_sockfd (e : Endian) (s : Proc) (i : Step) :
    (loopBody e s i).2.sockfd = s.sockfd := by
  rw [loopBody_eq]

theorem loopBody_status (e : Endian) (s : Proc) (i : Step) :
    (loopBody e s i).2.status = s.status := by
  rw [loopBody_eq]

theorem loopBody_trace (e : Endian) (s : Proc) (i : Step) :
    (loopBody e s i).2.trace = s.trace ++ passEvents e s.sockfd i := by
  rw [loopBody_eq]

/-! ## The whole loop -/

theorem whileLoop_eq (e : Endian) (s : Proc) (steps : List Step) :
    whileLoop 1 (loopBody e) s steps = (false, runSteps e s steps) := by
  induction steps generalizing s with
  | nil => simp [whileLoop, runSteps]
  | cons i is ih =>
    have hc := loopBody_ctl e s i
    have hstep : whileLoop 1 (loopBody e) s (i :: is)
        = whileLoop 1 (loopBody e) (loopBody e s i).2 is := by
      rw [whileLoop]
      simp only [one_ne_zero, if_false]
    rw [hstep, ih]
    rfl

theorem captureLoop_eq (e : Endian) (s : Proc) (steps : List Step) :
    captureLoop e s steps = (false, runSteps e s steps) :=
  whileLoop_eq e s steps

theorem runSteps_sockfd (e : Endian) (s : Proc) (steps : List Step) :
    (runSteps e s steps).sockfd = s.sockfd := by
  induction steps generalizing s with
  | nil => rfl
  | cons i is ih =>
    show (runSteps e (loopBody e s i).2 is).sockfd = s.sockfd
    rw [ih, loopBody_sockfd]

theorem runSteps_status (e : Endian) (s : Proc) (steps : List Step) :
    (runSteps e s steps).status = s.status := by
  induction steps generalizing s with
  | nil => rfl
  | cons i is ih =>
    show (runSteps e (loopBody e s i).2 is).status = s.status
    rw [ih, loopBody_status]

theorem runSteps_trace (e : Endian) (s : Proc) (steps : List Step) :
    (runSteps e s steps).trace = s.trace ++ steps.flatMap (passEvents e s.sockfd) := by
  induction steps generalizing s with
  | nil => simp [runSteps]
  | cons i is ih =>
    show (runSteps e (loopBody e s i).2 is).trace = _
    rw [ih, loopBody_trace, loopBody_sockfd]
    simp [List.flatMap_cons, List.append_assoc]

/-! ## main -/

theorem main_of_ok (e : Endian) (env : SetupEnv) (buf0 : List Byte) (steps : List Step)
    (h : env.ok) :
    (main e env buf0 steps).trace = setupEvents e env ++ steps.flatMap (passEvents e env.socketRet)
      ∧ (main e env buf0 steps).status = Status.running
      ∧ (main e env buf0 steps).sockfd = env.socketRet := by
  obtain ⟨h1, h2, h3⟩ := h
  have n1 : ¬ env.socketRet < 0 := by omega
  have n2 : ¬ env.ioctlRet < 0 := by omega
  have n3 : ¬ env.bindRet < 0 := by omega
  have hname : strncpy "tun0" (IFNAMSIZ - 1) = "tun0" := by decide
  unfold main
  simp only [n1, n2, n3, if_false, captureLoop_eq, hname]
  refine ⟨?_, ?_, ?_⟩
  · rw [runSteps_trace]
    simp [Proc.call, start, setupEvents]
  · rw [runSteps_status]
    simp [Proc.call, start]
  · rw [runSteps_sockfd]
    simp [Proc.call, start]

/-! ## The bytes of a run -/

theorem written_append (t u : List Event) : written (t ++ u) = written t ++ written u := by
  simp [written, List.flatMap_append]

theorem written_setupEvents (e : Endian) (env : SetupEnv) : written (setupEvents e env) = [] := by
  simp [written, setupEvents, Event.bytes]

theorem written_passEvents (e : Endian) (fd : Int) (i : Step) :
    written (passEvents e fd i) =
      if i.len ≤ 0 then []
      else objectBytes e (toInt (htonl e (toUInt32 i.len))) ++ i.buf.take (toSizeT i.len) := by
  unfold passEvents
  by_cases h : i.len ≤ 0 <;> simp [h, written, Event.bytes]

theorem written_passEvents_pos (e : Endian) (fd : Int) (i : Step) (h0 : 0 < i.len)
    (h1 : i.len ≤ 65536) :
    written (passEvents e fd i) = uint32_be i.len.toNat ++ i.payload := by
  have hn : ¬ i.len ≤ 0 := by omega
  rw [written_passEvents, if_neg hn, toUInt32_of_nonneg _ (by omega) (by omega),
    toSizeT_of_nonneg _ (by omega) (by omega), objectBytes_htonl _ _ (by omega)]
  rfl

theorem written_passEvents_nonpos (e : Endian) (fd : Int) (i : Step) (h : i.len ≤ 0) :
    written (passEvents e fd i) = [] := by
  rw [written_passEvents, if_pos h]

theorem written_passes (e : Endian) (fd : Int) (steps : List Step)
    (hlen : ∀ i ∈ steps, 0 < i.len → i.len ≤ 65536) :
    written (steps.flatMap (passEvents e fd)) =
      (steps.filter (fun i => decide (0 < i.len))).flatMap
        (fun i => uint32_be i.len.toNat ++ i.payload) := by
  induction steps with
  | nil => rfl
  | cons i is ih =>
    have hrest := ih (fun j hj => hlen j (List.mem_cons_of_mem _ hj))
    rw [List.flatMap_cons, written_append, hrest]
    by_cases h : 0 < i.len
    · rw [written_passEvents_pos e fd i h (hlen i (List.mem_cons_self _ _) h)]
      simp [List.filter_cons, h]
    · rw [written_passEvents_nonpos e fd i (by omega)]
      simp [List.filter_cons, h]

theorem written_main (e : Endian) (env : SetupEnv) (buf0 : List Byte) (steps : List Step)
    (hok : env.ok) :
    written (main e env buf0 steps).trace = written (steps.flatMap (passEvents e env.socketRet)) := by
  rw [(main_of_ok e env buf0 steps hok).1, written_append, written_setupEvents]
  rfl

theorem payload_length (i : Step) (h0 : 0 ≤ i.len) (h1 : i.len ≤ 65536)
    (hb : i.buf.length = sizeof_buffer) : i.payload.length = i.len.toNat := by
  unfold Step.payload
  rw [List.length_take, hb]
  unfold sizeof_buffer
  omega

theorem uint32_be_length (L : Nat) : (uint32_be L).length = 4 := rfl

theorem bufferOf_length (bytes : List Byte) (h : bytes.length ≤ sizeof_buffer) :
    (bufferOf bytes).length = sizeof_buffer := by
  unfold bufferOf
  rw [List.length_append, List.length_replicate]
  omega

theorem length_flatMap_records (l : List Step) :
    (l.flatMap (fun i => uint32_be i.len.toNat ++ i.payload)).length =
      (l.map (fun i => 4 + i.payload.length)).sum := by
  induction l with
  | nil => rfl
  | cons i is ih =>
    simp only [List.flatMap_cons, List.length_append, List.map_cons, List.sum_cons, ih,
      uint32_be_length]

/-! ## Failing setup -/

theorem main_socket_fail (e : Endian) (env : SetupEnv) (buf0 : List Byte) (steps : List Step)
    (h : env.socketRet < 0) :
    (main e env buf0 steps).trace =
        [Event.socket AF_PACKET SOCK_RAW (htons e ETH_P_ALL), Event.perror "socket", Event.exit 1]
      ∧ (main e env buf0 steps).status = Status.exited 1 := by
  unfold main
  simp [h, exit, perror, Proc.call, start]

theorem main_ioctl_fail (e : Endian) (env : SetupEnv) (buf0 : List Byte) (steps : List Step)
    (h1 : 0 ≤ env.socketRet) (h2 : env.ioctlRet < 0) :
    (main e env buf0 steps).trace =
        [Event.socket AF_PACKET SOCK_RAW (htons e ETH_P_ALL),
         Event.ioctl env.socketRet SIOCGIFINDEX "tun0",
         Event.perror "SIOCGIFINDEX", Event.exit 1]
      ∧ (main e env buf0 steps).status = Status.exited 1 := by
  have n1 : ¬ env.socketRet < 0 := by omega
  have hname : strncpy "tun0" (IFNAMSIZ - 1) = "tun0" := by decide
  unfold main
  simp [n1, h2, hname, exit, perror, Proc.call, start]

theorem main_bind_fail (e : Endian) (env : SetupEnv) (buf0 : List Byte) (steps : List Step)
    (h1 : 0 ≤ env.socketRet) (h2 : 0 ≤ env.ioctlRet) (h3 : env.bindRet < 0) :
    (main e env buf0 steps).trace =
        [Event.socket AF_PACKET SOCK_RAW (htons e ETH_P_ALL),
         Event.ioctl env.socketRet SIOCGIFINDEX "tun0",
         Event.bind env.socketRet AF_PACKET (htons e ETH_P_ALL) env.ifindex,
         Event.perror "bind", Event.exit 1]
      ∧ (main e env buf0 steps).status = Status.exited 1 := by
  have n1 : ¬ env.socketRet < 0 := by omega
  have n2 : ¬ env.ioctlRet < 0 := by omega
  have hname : strncpy "tun0" (IFNAMSIZ - 1) = "tun0" := by decide
  unfold main
  simp [n1, n2, h3, hname, exit, perror, Proc.call, start]

/-- When a setup call fails, the run does not depend on the passes and hands
nothing to stdout. -/
theorem main_of_not_ok (e : Endian) (env : SetupEnv) (buf0 : List Byte) (steps : List Step)
    (h : ¬ env.ok) :
    (main e env buf0 steps).status = Status.exited 1
      ∧ written (main e env buf0 steps).trace = []
      ∧ recvCount (main e env buf0 steps).trace = 0
      ∧ (main e env buf0 steps).trace = (main e env buf0 []).trace := by
  by_cases h1 : env.socketRet < 0
  · have a := main_socket_fail e env buf0 steps h1
    have b := main_socket_fail e env buf0 [] h1
    rw [a.1, b.1, a.2]
    simp [written, Event.bytes, recvCount]
  · by_cases h2 : env.ioctlRet < 0
    · have a := main_ioctl_fail e env buf0 steps (by omega) h2
      have b := main_ioctl_fail e env buf0 [] (by omega) h2
      rw [a.1, b.1, a.2]
      simp [written, Event.bytes, recvCount]
    · have h3 : env.bindRet < 0 := by
        unfold SetupEnv.ok at h
        omega
      have a := main_bind_fail e env buf0 steps (by omega) (by omega) h3
      have b := main_bind_fail e env buf0 [] (by omega) (by omega) h3
      rw [a.1, b.1, a.2]
      simp [written, Event.bytes, recvCount]

theorem unflushed_append (t u : List Event) :
    unflushed (t ++ u) = u.foldl Event.pend (unflushed t) := by
  simp [unflushed, List.foldl_append]

theorem written_main_append (e : Endian) (env : SetupEnv) (b1 b2 b3 : List Byte)
    (xs ys : List Step) :
    written (main e env b1 (xs ++ ys)).trace =
      written (main e env b2 xs).trace ++ written (main e env b3 ys).trace := by
  by_cases hok : env.ok
  · rw [written_main e env b1 _ hok, written_main e env b2 _ hok, written_main e env b3 _ hok,
      List.flatMap_append, written_append]
  · rw [(main_of_not_ok e env b1 _ hok).2.1, (main_of_not_ok e env b2 _ hok).2.1,
      (main_of_not_ok e env b3 _ hok).2.1]
    rfl

theorem take_drop_mid {α : Type} (p r t : List α) (n m : Nat) (hn : n = p.length)
    (hm : m = r.length) : ((p ++ r ++ t).drop n).take m = r := by
  subst hn hm
  rw [List.append_assoc, List.drop_left, List.take_left]

/-! ## Decoding a stream of records -/

theorem framedRecord_length (r : List Byte) : (framedRecord r).length = 4 + r.length := by
  simp [framedRecord, uint32_be_length]

theorem length_le_flatMap_framedRecord (recs : List (List Byte)) :
    recs.length ≤ (recs.flatMap framedRecord).length := by
  induction recs with
  | nil => simp
  | cons r rs ih =>
    rw [List.flatMap_cons, List.length_append, framedRecord_length, List.length_cons]
    omega

theorem decodeRecords_cons (fuel : Nat) (r tail : List Byte) (hr : r.length < 4294967296) :
    decodeRecords (fuel + 1) (framedRecord r ++ tail) =
      match decodeRecords fuel tail with
      | some recs => some (r :: recs)
      | none => none := by
  have hd := decode_uint32_be_encode r.length hr
  simp only [uint32_be] at hd
  show decodeRecords (fuel + 1) (byteOf (r.length / 16777216) :: byteOf (r.length / 65536)
    :: byteOf (r.length / 256) :: byteOf r.length :: (r ++ tail)) = _
  rw [decodeRecords]
  simp only [hd]
  rw [if_pos (by rw [List.length_append]; omega), List.drop_left, List.take_left]

theorem decodeRecords_records (recs : List (List Byte))
    (h : ∀ r ∈ recs, r.length < 4294967296) (fuel : Nat) (hf : recs.length ≤ fuel) :
    decodeRecords fuel (recs.flatMap framedRecord) = some recs := by
  induction recs generalizing fuel with
  | nil => cases fuel <;> rfl
  | cons r rs ih =>
    cases fuel with
    | zero => simp at hf
    | succ f =>
      rw [List.flatMap_cons, decodeRecords_cons f r _ (h r (List.mem_cons_self _ _)),
        ih (fun x hx => h x (List.mem_cons_of_mem _ hx)) f (by simpa using hf)]

theorem decodeStream_records (recs : List (List Byte))
    (h : ∀ r ∈ recs, r.length < 4294967296) :
    decodeStream (recs.flatMap framedRecord) = some recs :=
  decodeRecords_records recs h _ (length_le_flatMap_framedRecord recs)

theorem records_eq_framed (l : List Step) (h : ∀ i ∈ l, i.payload.length = i.len.toNat) :
    l.flatMap (fun i => uint32_be i.len.toNat ++ i.payload) =
      (l.map Step.payload).flatMap framedRecord := by
  induction l with
  | nil => rfl
  | cons i is ih =>
    rw [List.flatMap_cons, List.map_cons, List.flatMap_cons,
      ih (fun j hj => h j (List.mem_cons_of_mem _ hj))]
    unfold framedRecord
    rw [h i (List.mem_cons_self _ _)]

theorem decode_main (e : Endian) (env : SetupEnv) (buf0 : List Byte) (steps : List Step)
    (hok : env.ok)
    (hlen : ∀ i ∈ steps, i.len ≤ 65536)
    (hbuf : ∀ i ∈ steps, i.buf.length = sizeof_buffer) :
    decodeStream (written (main e env buf0 steps).trace) =
      some ((steps.filter (fun i => decide (0 < i.len))).map Step.payload) := by
  have hpay : ∀ i ∈ steps.filter (fun i => decide (0 < i.len)),
      i.payload.length = i.len.toNat := by
    intro i hi
    rw [List.mem_filter] at hi
    have h0 : 0 < i.len := by simpa using hi.2
    exact payload_length i (by omega) (hlen i hi.1) (hbuf i hi.1)
  rw [written_main e env buf0 steps hok,
    written_passes e env.socketRet steps (fun i hi _ => hlen i hi), records_eq_framed _ hpay]
  apply decodeStream_records
  intro r hr
  rw [List.mem_map] at hr
  obtain ⟨i, hi, rfl⟩ := hr
  rw [hpay i hi]
  have := hlen i (List.mem_filter.1 hi).1
  omega

/-! ## Flushing and counting -/

theorem unflushed_passEvents (e : Endian) (fd : Int) (i : Step) (t : List Event)
    (h : unflushed t = []) : unflushed (t ++ passEvents e fd i) = [] := by
  rw [unflushed_append, h]
  unfold passEvents
  by_cases hl : i.len ≤ 0 <;> simp [hl, Event.pend]

theorem unflushed_passes (e : Endian) (fd : Int) (steps : List Step) (t : List Event)
    (h : unflushed t = []) : unflushed (t ++ steps.flatMap (passEvents e fd)) = [] := by
  induction steps generalizing t with
  | nil => simpa using h
  | cons i is ih =>
    rw [List.flatMap_cons, ← List.append_assoc]
    exact ih _ (unflushed_passEvents e fd i t h)

theorem recvCount_append (t u : List Event) : recvCount (t ++ u) = recvCount t + recvCount u := by
  simp [recvCount, List.countP_append]

theorem recvCount_passEvents (e : Endian) (fd : Int) (i : Step) :
    recvCount (passEvents e fd i) = 1 := by
  unfold passEvents recvCount
  by_cases hl : i.len ≤ 0 <;> simp [hl, List.countP_cons]

theorem recvCount_passes (e : Endian) (fd : Int) (steps : List Step) :
    recvCount (steps.flatMap (passEvents e fd)) = steps.length := by
  induction steps with
  | nil => rfl
  | cons i is ih =>
    rw [List.flatMap_cons, recvCount_append, recvCount_passEvents, ih, List.length_cons]
    omega

theorem mem_passes (e : Endian) (fd : Int) (steps : List Step) (ev : Event)
    (h : ev ∈ steps.flatMap (passEvents e fd)) :
    ev = Event.recvfrom fd sizeof_buffer 0 ∨ (∃ bs, ev = Event.fwrite bs) ∨ ev = Event.fflush := by
  rw [List.mem_flatMap] at h
  obtain ⟨i, _, hi⟩ := h
  unfold passEvents at hi
  by_cases hl : i.len ≤ 0
  · simp [hl] at hi
    exact Or.inl hi
  · simp [hl] at hi
    rcases hi with h | h | h | h
    · exact Or.inl h
    · exact Or.inr (Or.inl ⟨_, h⟩)
    · exact Or.inr (Or.inl ⟨_, h⟩)
    · exact Or.inr (Or.inr h)

/-! ## The claims -/

/-- C1, framing round-trip. When setup has succeeded, for every finite sequence
of passes in which each positive receive result is at most 65536 (the buffer
holding 65536 bytes), the bytes handed to stdout are exactly the concatenation,
in receive order, of `uint32_be Li` followed by the first `Li` bytes of the
buffer, over the passes with a positive result `Li`; each such payload has
exactly `Li` bytes, and the stream has `4 + Li` bytes for each of them and no
others. -/
theorem framing_round_trip (e : Endian) (env : SetupEnv) (buf0 : List Byte) (steps : List Step)
    (hok : env.ok)
    (hlen : ∀ i ∈ steps, 0 < i.len → i.len ≤ 65536)
    (hbuf : ∀ i ∈ steps, i.buf.length = sizeof_buffer) :
    written (main e env buf0 steps).trace =
        (steps.filter (fun i => decide (0 < i.len))).flatMap
          (fun i => uint32_be i.len.toNat ++ i.payload)
      ∧ (∀ i ∈ steps, 0 < i.len → i.payload.length = i.len.toNat)
      ∧ (written (main e env buf0 steps).trace).length =
          ((steps.filter (fun i => decide (0 < i.len))).map (fun i => 4 + i.len.toNat)).sum := by
  have hpay : ∀ i ∈ steps, 0 < i.len → i.payload.length = i.len.toNat := fun i hi h0 =>
    payload_length i (by omega) (hlen i hi h0) (hbuf i hi)
  have hw := written_main e env buf0 steps hok
  rw [written_passes e env.socketRet steps hlen] at hw
  refine ⟨hw, hpay, ?_⟩
  rw [hw, length_flatMap_records]
  congr 1
  apply List.map_congr_left
  intro i hi
  rw [List.mem_filter] at hi
  rw [hpay i hi.1 (by simpa using hi.2)]

/-- Witness of C1: results 3, 0, -1, 2 on a little-endian host. -/
theorem framing_round_trip_witness :
    written (main Endian.little ⟨3, 0, 2, 0⟩ []
        [stepOf 3 [1, 2, 3], stepOf 0 [], stepOf (-1) [], stepOf 2 [9, 8]]).trace
      = [0, 0, 0, 3, 1, 2, 3, 0, 0, 0, 2, 9, 8] :=
  (framing_round_trip Endian.little ⟨3, 0, 2, 0⟩ []
    [stepOf 3 [1, 2, 3], stepOf 0 [], stepOf (-1) [], stepOf 2 [9, 8]]
    (by decide) (by decide)
    (by
      intro i hi
      simp only [List.mem_cons, List.mem_singleton, List.not_mem_nil, or_false] at hi
      rcases hi with h | h | h | h <;> subst h <;> exact bufferOf_length _ (by decide))).1.trans
    (by decide)

/-- C2, length-field fidelity. For a receive result `L` with `0 < L ≤ 65536`
the pass makes, right after the receive, an `fwrite` of the bytes of
`int n = htonl(len)` as they lie in memory; these are 4 bytes, they are
`uint32_be L` and decode as a big-endian unsigned integer to exactly `L`, on a
host of either byte order. The narrowing of the `ssize_t` to 32 bits keeps the
value, and the `int` holds the `htonl` result without loss (converting it back
to `uint32_t` gives the result again). -/
theorem length_field_fidelity (e : Endian) (s : Proc) (i : Step)
    (h0 : 0 < i.len) (h1 : i.len ≤ 65536) :
    (∃ rest, (loopBody e s i).2.trace =
        s.trace ++ Event.recvfrom s.sockfd sizeof_buffer 0
          :: Event.fwrite (objectBytes e (toInt (htonl e (toUInt32 i.len)))) :: rest)
      ∧ (objectBytes e (toInt (htonl e (toUInt32 i.len)))).length = 4
      ∧ objectBytes e (toInt (htonl e (toUInt32 i.len))) = uint32_be i.len.toNat
      ∧ decode_uint32_be (objectBytes e (toInt (htonl e (toUInt32 i.len)))) = some i.len.toNat
      ∧ ((toUInt32 i.len : Nat) : Int) = i.len
      ∧ toUInt32 (toInt (htonl e (toUInt32 i.len))) = htonl e (toUInt32 i.len)
      ∧ ((written (loopBody e s i).2.trace).drop (written s.trace).length).take 4
          = uint32_be i.len.toNat := by
  have hn : ¬ i.len ≤ 0 := by omega
  have hu : toUInt32 i.len = i.len.toNat := toUInt32_of_nonneg _ (by omega) (by omega)
  have hob : objectBytes e (toInt (htonl e (toUInt32 i.len))) = uint32_be i.len.toNat := by
    rw [hu, objectBytes_htonl _ _ (by omega)]
  refine ⟨?_, ?_, hob, ?_, ?_, ?_, ?_⟩
  · refine ⟨[Event.fwrite (i.buf.take (toSizeT i.len)), Event.fflush], ?_⟩
    rw [loopBody_trace]
    simp [passEvents, hn]
  · rw [hob]
    rfl
  · rw [hob, decode_uint32_be_encode _ (by omega)]
  · rw [hu]
    omega
  · exact toUInt32_toInt _ (htonl_lt e _)
  · rw [loopBody_trace, written_append, List.drop_left,
      written_passEvents_pos e s.sockfd i h0 h1, List.take_left' (uint32_be_length _)]

/-- Witness of C2: length 128 on a little-endian host, where `htonl` gives
`0x80000000` and `n` is negative. -/
theorem length_field_fidelity_witness :
    toInt (htonl Endian.little (toUInt32 128)) = -2147483648
      ∧ decode_uint32_be (objectBytes Endian.little (toInt (htonl Endian.little (toUInt32 128))))
          = some 128 :=
  ⟨by decide,
   (length_field_fidelity Endian.little (start []) (stepOf 128 []) (by decide)
      (by decide)).2.2.2.1⟩

/-- C3, non-positive suppression. A pass whose receive result is 0 or negative
consists of the receive alone and ends by `continue`: nothing is handed to
stdout, no flush is made, the bytes written and the bytes waiting to be flushed
are as before, no `perror` or `exit` is made and the status is unchanged; the
loop goes on with the next pass, whose receive is the very next call; and in a
whole run such a pass adds no byte to the output. -/
theorem nonpositive_suppression (e : Endian) (s : Proc) (i : Step) (h : i.len ≤ 0) :
    (loopBody e s i).1 = Ctl.continue_
      ∧ (loopBody e s i).2.trace = s.trace ++ [Event.recvfrom s.sockfd sizeof_buffer 0]
      ∧ written (loopBody e s i).2.trace = written s.trace
      ∧ (written (loopBody e s i).2.trace).length = (written s.trace).length
      ∧ unflushed (loopBody e s i).2.trace = unflushed s.trace
      ∧ (loopBody e s i).2.status = s.status
      ∧ (∀ rest, captureLoop e s (i :: rest) = captureLoop e (loopBody e s i).2 rest)
      ∧ (∀ j rest, ∃ tail, (captureLoop e s (i :: j :: rest)).2.trace =
          s.trace ++ Event.recvfrom s.sockfd sizeof_buffer 0
            :: Event.recvfrom s.sockfd sizeof_buffer 0 :: tail)
      ∧ (∀ env buf0 xs ys, written (main e env buf0 (xs ++ i :: ys)).trace
          = written (main e env buf0 (xs ++ ys)).trace) := by
  have ht : (loopBody e s i).2.trace = s.trace ++ [Event.recvfrom s.sockfd sizeof_buffer 0] := by
    rw [loopBody_trace]
    simp [passEvents, h]
  have hw : written (loopBody e s i).2.trace = written s.trace := by
    rw [ht, written_append]
    simp [written, Event.bytes]
  refine ⟨?_, ht, hw, by rw [hw], ?_, loopBody_status e s i, ?_, ?_, ?_⟩
  · rw [loopBody_eq]
    simp [h]
  · rw [ht, unflushed_append]
    rfl
  · intro rest
    rw [captureLoop_eq, captureLoop_eq]
    rfl
  · intro j rest
    rw [captureLoop_eq]
    show ∃ tail, (runSteps e (loopBody e (loopBody e s i).2 j).2 rest).trace = _
    rw [runSteps_trace, loopBody_trace, ht, loopBody_sockfd, loopBody_sockfd]
    by_cases hj : j.len ≤ 0
    · exact ⟨_, by simp [passEvents, hj]; rfl⟩
    · exact ⟨_, by simp [passEvents, hj]; rfl⟩
  · intro env buf0 xs ys
    have hi : written (main e env buf0 [i]).trace = [] := by
      by_cases hok : env.ok
      · rw [written_main e env buf0 _ hok]
        simp [written_passEvents_nonpos e env.socketRet i h]
      · exact (main_of_not_ok e env buf0 _ hok).2.1
    have hc := written_main_append e env buf0 buf0 buf0 [i] ys
    rw [hi, List.nil_append, List.singleton_append] at hc
    rw [written_main_append e env buf0 buf0 buf0 xs (i :: ys),
      written_main_append e env buf0 buf0 buf0 xs ys, hc]

/-- Witness of C3: a failed receive (result -1) between two frames. -/
theorem nonpositive_suppression_witness :
    written (main Endian.big ⟨3, 0, 2, 0⟩ []
        ([stepOf 1 [5]] ++ stepOf (-1) [] :: [stepOf 1 [6]])).trace
      = written (main Endian.big ⟨3, 0, 2, 0⟩ [] ([stepOf 1 [5]] ++ [stepOf 1 [6]])).trace :=
  (nonpositive_suppression Endian.big (start []) (stepOf (-1) []) (by decide)).2.2.2.2.2.2.2.2
    ⟨3, 0, 2, 0⟩ [] [stepOf 1 [5]] [stepOf 1 [6]]

/-- C4, order preservation. The output of the passes `xs` followed by `ys` is
the output of `xs` followed by the output of `ys`; the calls and the bytes of
the run of `xs` are an initial part of those of the longer run, so later passes
change nothing already written; and when a frame `a` is received before a
frame `b`, the record of `a` lies at positions `p .. p + 4 + La` of the output
and the record of `b` starts at a position `q` with `p + 4 + La ≤ q`. -/
theorem order_preservation (e : Endian) (env : SetupEnv) (buf0 : List Byte) (xs ys : List Step) :
    written (main e env buf0 (xs ++ ys)).trace =
        written (main e env buf0 xs).trace ++ written (main e env buf0 ys).trace
      ∧ (main e env buf0 xs).trace <+: (main e env buf0 (xs ++ ys)).trace
      ∧ written (main e env buf0 xs).trace <+: written (main e env buf0 (xs ++ ys)).trace
      ∧ (∀ (a b : Step) (zs : List Step), env.ok →
          0 < a.len → a.len ≤ 65536 → a.buf.length = sizeof_buffer →
          0 < b.len → b.len ≤ 65536 → b.buf.length = sizeof_buffer →
          written (main e env buf0 (xs ++ a :: (ys ++ b :: zs))).trace =
              written (main e env buf0 xs).trace ++ (uint32_be a.len.toNat ++ a.payload)
                ++ written (main e env buf0 ys).trace ++ (uint32_be b.len.toNat ++ b.payload)
                ++ written (main e env buf0 zs).trace
            ∧ ((written (main e env buf0 (xs ++ a :: (ys ++ b :: zs))).trace).drop
                  (written (main e env buf0 xs).trace).length).take (4 + a.len.toNat)
                = uint32_be a.len.toNat ++ a.payload
            ∧ ((written (main e env buf0 (xs ++ a :: (ys ++ b :: zs))).trace).drop
                  ((written (main e env buf0 xs).trace).length + (4 + a.len.toNat)
                    + (written (main e env buf0 ys).trace).length)).take (4 + b.len.toNat)
                = uint32_be b.len.toNat ++ b.payload) := by
  have happ := written_main_append e env buf0 buf0 buf0 xs ys
  refine ⟨happ, ?_, ⟨_, happ.symm⟩, ?_⟩
  · by_cases hok : env.ok
    · rw [(main_of_ok e env buf0 xs hok).1, (main_of_ok e env buf0 (xs ++ ys) hok).1,
        List.flatMap_append, ← List.append_assoc]
      exact List.prefix_append _ _
    · rw [(main_of_not_ok e env buf0 xs hok).2.2.2, (main_of_not_ok e env buf0 (xs ++ ys) hok).2.2.2]
  · intro a b zs hok ha0 ha1 hab hb0 hb1 hbb
    have one : ∀ i : Step, 0 < i.len → i.len ≤ 65536 →
        written (main e env buf0 [i]).trace = uint32_be i.len.toNat ++ i.payload := by
      intro i h0 h1
      rw [written_main e env buf0 _ hok]
      simp [written_passEvents_pos e env.socketRet i h0 h1]
    have cons : ∀ (i : Step) (l : List Step), written (main e env buf0 (i :: l)).trace =
        written (main e env buf0 [i]).trace ++ written (main e env buf0 l).trace :=
      fun i l => written_main_append e env buf0 buf0 buf0 [i] l
    have hla : (uint32_be a.len.toNat ++ a.payload).length = 4 + a.len.toNat := by
      rw [List.length_append, uint32_be_length, payload_length a (by omega) ha1 hab]
    have hlb : (uint32_be b.len.toNat ++ b.payload).length = 4 + b.len.toNat := by
      rw [List.length_append, uint32_be_length, payload_length b (by omega) hb1 hbb]
    have heq : written (main e env buf0 (xs ++ a :: (ys ++ b :: zs))).trace =
        written (main e env buf0 xs).trace ++ (uint32_be a.len.toNat ++ a.payload)
          ++ written (main e env buf0 ys).trace ++ (uint32_be b.len.toNat ++ b.payload)
          ++ written (main e env buf0 zs).trace := by
      rw [written_main_append e env buf0 buf0 buf0 xs, cons a,
        written_main_append e env buf0 buf0 buf0 ys, cons b, one a ha0 ha1, one b hb0 hb1]
      simp only [List.append_assoc]
    refine ⟨heq, ?_, ?_⟩
    · rw [heq]
      simp only [List.append_assoc]
      rw [← List.append_assoc (uint32_be a.len.toNat), ← List.append_assoc]
      exact take_drop_mid _ _ _ _ _ rfl hla.symm
    · rw [heq]
      refine take_drop_mid _ _ _ _ _ ?_ hlb.symm
      rw [List.length_append, List.length_append, hla]

/-- C5, one record per non-empty frame, self-delimiting. When setup has
succeeded and every receive result is at most 65536 (the buffer holding 65536
bytes), the wire-format decoder succeeds on the whole output and returns
exactly the payloads of the passes with a positive result, in receive order;
so there are as many records as such passes. For results 10, 0, 42 it returns
the two payloads of 10 and 42 bytes. -/
theorem one_record_per_frame (e : Endian) (env : SetupEnv) (buf0 : List Byte) (steps : List Step)
    (hok : env.ok)
    (hlen : ∀ i ∈ steps, i.len ≤ 65536)
    (hbuf : ∀ i ∈ steps, i.buf.length = sizeof_buffer) :
    decodeStream (written (main e env buf0 steps).trace) =
        some ((steps.filter (fun i => decide (0 < i.len))).map Step.payload)
      ∧ ((steps.filter (fun i => decide (0 < i.len))).map Step.payload).length =
          steps.countP (fun i => decide (0 < i.len))
      ∧ (∀ a b c : Step, steps = [a, b, c] → a.len = 10 → b.len = 0 → c.len = 42 →
          decodeStream (written (main e env buf0 steps).trace) = some [a.payload, c.payload]
            ∧ a.payload.length = 10 ∧ c.payload.length = 42) := by
  have hdec := decode_main e env buf0 steps hok hlen hbuf
  refine ⟨hdec, ?_, ?_⟩
  · rw [List.length_map, List.countP_eq_length_filter]
  · intro a b c hs ha hb hc
    subst hs
    rw [hdec]
    have h1 := payload_length a (by omega) (by omega) (hbuf a (by simp))
    have h3 := payload_length c (by omega) (by omega) (hbuf c (by simp))
    rw [ha] at h1
    rw [hc] at h3
    refine ⟨?_, h1, h3⟩
    simp [List.filter_cons, ha, hb, hc]

/-- Witness of C5: frames of lengths 10, 0 and 42, in that order. -/
theorem one_record_per_frame_witness :
    decodeStream (written (main Endian.little ⟨3, 0, 2, 0⟩ []
        [stepOf 10 (List.replicate 10 1), stepOf 0 [], stepOf 42 (List.replicate 42 2)]).trace)
      = some [(stepOf 10 (List.replicate 10 1)).payload,
              (stepOf 42 (List.replicate 42 2)).payload] :=
  ((one_record_per_frame Endian.little ⟨3, 0, 2, 0⟩ []
    [stepOf 10 (List.replicate 10 1), stepOf 0 [], stepOf 42 (List.replicate 42 2)]
    (by decide) (by decide)
    (by
      intro i hi
      simp only [List.mem_cons, List.mem_singleton, List.not_mem_nil, or_false] at hi
      rcases hi with h | h | h <;> subst h <;> exact bufferOf_length _ (by decide))).2.2
    _ _ _ rfl rfl rfl rfl).1

/-- C6, boundary scenario. A receive result of exactly 65536, the size of the
buffer, gives one record: the length field is the bytes 00 01 00 00, which
decode to 65536, and the payload is the whole buffer, 65540 bytes in all; a run
of that single pass decodes to the one frame. The receive is called with size
65536 and, with the receive call modelled from the specification (it copies at
most `size` bytes), no result is greater than 65536, the buffer keeps its
size, a frame of exactly 65536 bytes arrives whole and a longer one is cut to
its first 65536 bytes. -/
theorem boundary_scenario (e : Endian) (s : Proc) (i : Step)
    (hlen : i.len = 65536) (hbuf : i.buf.length = sizeof_buffer) :
    (loopBody e s i).2.trace =
        s.trace ++ [Event.recvfrom s.sockfd 65536 0, Event.fwrite [0, 1, 0, 0],
          Event.fwrite i.buf, Event.fflush]
      ∧ decode_uint32_be [0, 1, 0, 0] = some 65536
      ∧ written (loopBody e s i).2.trace = written s.trace ++ [0, 1, 0, 0] ++ i.buf
      ∧ (written (loopBody e s i).2.trace).length = (written s.trace).length + 65540
      ∧ (∀ env buf0, env.ok →
          written (main e env buf0 [i]).trace = [0, 1, 0, 0] ++ i.buf
            ∧ decodeStream (written (main e env buf0 [i]).trace) = some [i.buf])
      ∧ (∀ (a : Arrival) (buffer : List Byte), (recvfrom a buffer sizeof_buffer).1 ≤ 65536)
      ∧ (∀ (a : Arrival) (buffer : List Byte), buffer.length = sizeof_buffer →
          (recvfrom a buffer sizeof_buffer).2.length = sizeof_buffer)
      ∧ (∀ frame buffer : List Byte, frame.length = 65536 → buffer.length = sizeof_buffer →
          recvfrom (Arrival.frame frame) buffer sizeof_buffer = (65536, frame))
      ∧ (∀ frame buffer : List Byte, 65536 < frame.length → buffer.length = sizeof_buffer →
          recvfrom (Arrival.frame frame) buffer sizeof_buffer = (65536, frame.take 65536)) := by
  have hn : ¬ i.len ≤ 0 := by omega
  have hL : i.len.toNat = 65536 := by omega
  have hle : i.buf.length ≤ i.len.toNat := by
    rw [hbuf, hL]
    unfold sizeof_buffer
    exact Nat.le_refl _
  have hpre : objectBytes e (toInt (htonl e (toUInt32 i.len))) = [0, 1, 0, 0] := by
    rw [toUInt32_of_nonneg _ (by omega) (by omega), objectBytes_htonl _ _ (by omega), hL]
    decide
  have htake : i.buf.take (toSizeT i.len) = i.buf := by
    rw [toSizeT_of_nonneg _ (by omega) (by omega)]
    exact List.take_of_length_le hle
  have hpass : passEvents e s.sockfd i =
      [Event.recvfrom s.sockfd 65536 0, Event.fwrite [0, 1, 0, 0], Event.fwrite i.buf,
        Event.fflush] := by
    unfold passEvents sizeof_buffer
    rw [if_neg hn, hpre, htake]
  have hw : written (loopBody e s i).2.trace = written s.trace ++ [0, 1, 0, 0] ++ i.buf := by
    rw [loopBody_trace, hpass, written_append, List.append_assoc]
    simp [written, Event.bytes]
  have hpl : i.payload = i.buf := by
    unfold Step.payload
    exact List.take_of_length_le hle
  refine ⟨by rw [loopBody_trace, hpass], by decide, hw, ?_, ?_, ?_, ?_, ?_, ?_⟩
  · have h4 : ([0, 1, 0, 0] : List Byte).length = 4 := rfl
    rw [hw, List.length_append, List.length_append, hbuf, h4]
    unfold sizeof_buffer
    omega
  · intro env buf0 hok
    have hd := decode_main e env buf0 [i] hok (by simp [hlen]) (by simpa using hbuf)
    have hwm := written_main e env buf0 [i] hok
    have hu : uint32_be i.len.toNat = [0, 1, 0, 0] := by
      rw [hL]
      decide
    rw [List.flatMap_singleton, written_passEvents_pos e env.socketRet i (by omega) (by omega),
      hpl, hu] at hwm
    refine ⟨hwm, ?_⟩
    rw [hd]
    simp [List.filter_cons, hlen, hpl]
  · intro a buffer
    cases a with
    | error => simp [recvfrom]
    | frame bytes =>
      simp only [recvfrom, sizeof_buffer]
      omega
  · intro a buffer hb
    cases a with
    | error => simpa [recvfrom] using hb
    | frame bytes =>
      simp only [recvfrom, List.length_append, List.length_take, List.length_drop, hb]
      omega
  · intro frame buffer hf hb
    have hm : min frame.length sizeof_buffer = 65536 := by
      unfold sizeof_buffer
      omega
    have hb2 : buffer.length ≤ 65536 := by
      rw [hb]
      exact Nat.le_refl _
    simp only [recvfrom, hm]
    rw [List.take_of_length_le (by omega), List.drop_of_length_le hb2]
    simp
  · intro frame buffer hf hb
    have hm : min frame.length sizeof_buffer = 65536 := by
      unfold sizeof_buffer
      omega
    have hb2 : buffer.length ≤ 65536 := by
      rw [hb]
      exact Nat.le_refl _
    simp only [recvfrom, hm]
    rw [List.drop_of_length_le hb2]
    simp

/-- Witness of C6: a buffer filled with 65536 bytes of value 255. -/
theorem boundary_scenario_witness :
    (written (loopBody Endian.little (start [])
        (stepOf 65536 (List.replicate 65536 255))).2.trace).length
      = (written (start []).trace).length + 65540 :=
  (boundary_scenario Endian.little (start []) (stepOf 65536 (List.replicate 65536 255))
    rfl (bufferOf_length _ (by
      rw [List.length_replicate]
      unfold sizeof_buffer
      exact Nat.le_refl _))).2.2.2.1

/-- C7, fatal setup. When at least one of the three setup calls fails, the
process ends with exit status 1, nothing has been handed to stdout (no `fwrite`
at all) and no receive has been made. When the interface does not exist, so
that `ioctl(SIOCGIFINDEX)` fails, the calls are exactly `socket`, `ioctl`,
`perror`, `exit(1)`. -/
theorem fatal_setup (e : Endian) (env : SetupEnv) (buf0 : List Byte) (steps : List Step)
    (h : env.socketRet < 0 ∨ env.ioctlRet < 0 ∨ env.bindRet < 0) :
    (main e env buf0 steps).status = Status.exited 1
      ∧ written (main e env buf0 steps).trace = []
      ∧ (∀ bs, Event.fwrite bs ∉ (main e env buf0 steps).trace)
      ∧ recvCount (main e env buf0 steps).trace = 0
      ∧ (∀ fd size flags, Event.recvfrom fd size flags ∉ (main e env buf0 steps).trace)
      ∧ (0 ≤ env.socketRet → env.ioctlRet < 0 →
          (main e env buf0 steps).trace =
            [Event.socket AF_PACKET SOCK_RAW (htons e ETH_P_ALL),
             Event.ioctl env.socketRet SIOCGIFINDEX "tun0",
             Event.perror "SIOCGIFINDEX", Event.exit 1]) := by
  have hnot : ¬ env.ok := by
    unfold SetupEnv.ok
    omega
  have hm := main_of_not_ok e env buf0 steps hnot
  refine ⟨hm.1, hm.2.1, ?_, hm.2.2.1, ?_, fun h1 h2 => (main_ioctl_fail e env buf0 steps h1 h2).1⟩
  · intro bs
    by_cases h1 : env.socketRet < 0
    · rw [(main_socket_fail e env buf0 steps h1).1]
      simp
    · by_cases h2 : env.ioctlRet < 0
      · rw [(main_ioctl_fail e env buf0 steps (by omega) h2).1]
        simp
      · rw [(main_bind_fail e env buf0 steps (by omega) (by omega) (by omega)).1]
        simp
  · intro fd size flags
    by_cases h1 : env.socketRet < 0
    · rw [(main_socket_fail e env buf0 steps h1).1]
      simp
    · by_cases h2 : env.ioctlRet < 0
      · rw [(main_ioctl_fail e env buf0 steps (by omega) h2).1]
        simp
      · rw [(main_bind_fail e env buf0 steps (by omega) (by omega) (by omega)).1]
        simp

/-- Witness of C7: the interface does not exist (`ioctl` gives -1) while a frame
is waiting. -/
theorem fatal_setup_witness :
    (main Endian.little ⟨3, -1, 0, 0⟩ [] [stepOf 2 [9, 8]]).status = Status.exited 1
      ∧ written (main Endian.little ⟨3, -1, 0, 0⟩ [] [stepOf 2 [9, 8]]).trace = [] :=
  ⟨(fatal_setup Endian.little ⟨3, -1, 0, 0⟩ [] [stepOf 2 [9, 8]] (by decide)).1,
   (fatal_setup Endian.little ⟨3, -1, 0, 0⟩ [] [stepOf 2 [9, 8]] (by decide)).2.1⟩

/-- C8, setup diagnostics and no retry. The setup makes its calls once each in
the order `socket`, `ioctl(SIOCGIFINDEX)` on the name "tun0", `bind`. At the
first call that fails the only further calls are `perror` with the name of
that step ("socket", "SIOCGIFINDEX" or "bind") and `exit(1)`: no later step,
no second attempt. When all three succeed, the calls made before the loop are
exactly those three, with `bind` given family `AF_PACKET`, protocol
`htons(ETH_P_ALL)` and the index stored by `ioctl`; no `perror` is ever made,
every later call is a `recvfrom` on the socket, an `fwrite` or an `fflush`, the
first of them being a `recvfrom`, and the process keeps running. -/
theorem setup_diagnostics (e : Endian) (env : SetupEnv) (buf0 : List Byte) (steps : List Step) :
    (env.socketRet < 0 →
        (main e env buf0 steps).trace =
            [Event.socket AF_PACKET SOCK_RAW (htons e ETH_P_ALL),
             Event.perror "socket", Event.exit 1]
          ∧ (main e env buf0 steps).status = Status.exited 1)
      ∧ (0 ≤ env.socketRet → env.ioctlRet < 0 →
        (main e env buf0 steps).trace =
            [Event.socket AF_PACKET SOCK_RAW (htons e ETH_P_ALL),
             Event.ioctl env.socketRet SIOCGIFINDEX "tun0",
             Event.perror "SIOCGIFINDEX", Event.exit 1]
          ∧ (main e env buf0 steps).status = Status.exited 1)
      ∧ (0 ≤ env.socketRet → 0 ≤ env.ioctlRet → env.bindRet < 0 →
        (main e env buf0 steps).trace =
            [Event.socket AF_PACKET SOCK_RAW (htons e ETH_P_ALL),
             Event.ioctl env.socketRet SIOCGIFINDEX "tun0",
             Event.bind env.socketRet AF_PACKET (htons e ETH_P_ALL) env.ifindex,
             Event.perror "bind", Event.exit 1]
          ∧ (main e env buf0 steps).status = Status.exited 1)
      ∧ (env.ok →
        (∃ tail, (main e env buf0 steps).trace =
            [Event.socket AF_PACKET SOCK_RAW (htons e ETH_P_ALL),
             Event.ioctl env.socketRet SIOCGIFINDEX "tun0",
             Event.bind env.socketRet AF_PACKET (htons e ETH_P_ALL) env.ifindex] ++ tail
          ∧ (∀ ev ∈ tail, ev = Event.recvfrom env.socketRet sizeof_buffer 0
              ∨ (∃ bs, ev = Event.fwrite bs) ∨ ev = Event.fflush)
          ∧ (steps = [] → tail = [])
          ∧ (steps ≠ [] → tail.head? = some (Event.recvfrom env.socketRet sizeof_buffer 0)))
          ∧ (∀ msg, Event.perror msg ∉ (main e env buf0 steps).trace)
          ∧ (main e env buf0 steps).status = Status.running) := by
  refine ⟨main_socket_fail e env buf0 steps, main_ioctl_fail e env buf0 steps,
    main_bind_fail e env buf0 steps, ?_⟩
  intro hok
  have hm := main_of_ok e env buf0 steps hok
  have hmem := mem_passes e env.socketRet steps
  refine ⟨⟨steps.flatMap (passEvents e env.socketRet), hm.1, hmem, ?_, ?_⟩, ?_, hm.2.1⟩
  · intro hs
    rw [hs]
    rfl
  · intro hs
    cases steps with
    | nil => exact absurd rfl hs
    | cons i is =>
      rw [List.flatMap_cons]
      unfold passEvents
      by_cases hl : i.len ≤ 0 <;> simp [hl]
  · intro msg hmsg
    rw [hm.1, List.mem_append] at hmsg
    rcases hmsg with h | h
    · simp [setupEvents] at h
    · rcases hmem _ h with h1 | ⟨bs, h1⟩ | h1 <;> cases h1

/-- C9, write discipline. A pass with a positive receive result `L` (at most
65536, the buffer holding 65536 bytes) makes, after the receive, exactly three
calls in this order: `fwrite` of the 4-byte length field, `fwrite` of the
first `L` bytes of the buffer, `fflush`. The payload has exactly `L` bytes;
bytes of the buffer at positions `L` and beyond do not reach the output; the
buffer is left as the receive filled it; after the pass no byte waits to be
flushed. In a run, whenever a receive is started nothing waits to be flushed
and the output decodes as whole records. -/
theorem write_discipline (e : Endian) (s : Proc) (i : Step)
    (h0 : 0 < i.len) (h1 : i.len ≤ 65536) (hbuf : i.buf.length = sizeof_buffer) :
    (loopBody e s i).2.trace =
        s.trace ++ [Event.recvfrom s.sockfd sizeof_buffer 0,
          Event.fwrite (uint32_be i.len.toNat),
          Event.fwrite (i.buf.take i.len.toNat),
          Event.fflush]
      ∧ (uint32_be i.len.toNat).length = 4
      ∧ (i.buf.take i.len.toNat).length = i.len.toNat
      ∧ (loopBody e s i).2.buffer = i.buf
      ∧ (∀ j : Step, j.len = i.len → j.buf.take i.len.toNat = i.buf.take i.len.toNat →
          (loopBody e s j).2.trace = (loopBody e s i).2.trace)
      ∧ unflushed (loopBody e s i).2.trace = []
      ∧ (∀ env buf0 xs j ys, env.ok →
          (∃ tail, (main e env buf0 (xs ++ j :: ys)).trace =
            (main e env buf0 xs).trace ++ Event.recvfrom env.socketRet sizeof_buffer 0 :: tail)
          ∧ unflushed (main e env buf0 xs).trace = []
          ∧ ((∀ k ∈ xs, k.len ≤ 65536 ∧ k.buf.length = sizeof_buffer) →
              decodeStream (written (main e env buf0 xs).trace) =
                some ((xs.filter (fun k => decide (0 < k.len))).map Step.payload))) := by
  have hn : ¬ i.len ≤ 0 := by omega
  have hpass : ∀ j : Step, j.len = i.len →
      passEvents e s.sockfd j =
        [Event.recvfrom s.sockfd sizeof_buffer 0, Event.fwrite (uint32_be i.len.toNat),
          Event.fwrite (j.buf.take i.len.toNat), Event.fflush] := by
    intro j hj
    unfold passEvents
    rw [hj, if_neg hn, toUInt32_of_nonneg _ (by omega) (by omega),
      toSizeT_of_nonneg _ (by omega) (by omega), objectBytes_htonl _ _ (by omega)]
  have ht := loopBody_trace e s i
  rw [hpass i rfl] at ht
  refine ⟨ht, rfl, payload_length i (by omega) h1 hbuf, by rw [loopBody_eq], ?_, ?_, ?_⟩
  · intro j hj hjb
    rw [ht, loopBody_trace, hpass j hj, hjb]
  · rw [ht, unflushed_append]
    rfl
  · intro env buf0 xs j ys hok
    have hx := main_of_ok e env buf0 xs hok
    refine ⟨?_, ?_, ?_⟩
    · rw [(main_of_ok e env buf0 (xs ++ j :: ys) hok).1, hx.1, List.flatMap_append,
        List.flatMap_cons, ← List.append_assoc]
      unfold passEvents
      by_cases hl : j.len ≤ 0
      · exact ⟨_, by simp [hl]; rfl⟩
      · exact ⟨_, by simp [hl]; rfl⟩
    · rw [hx.1]
      exact unflushed_passes e env.socketRet xs _ rfl
    · intro hwf
      exact decode_main e env buf0 xs hok (fun k hk => (hwf k hk).1) (fun k hk => (hwf k hk).2)

/-- Witness of C9: a frame of one byte received into a buffer that still holds
the rest of an earlier, longer frame; only the first byte is written. -/
theorem write_discipline_witness :
    (loopBody Endian.little (start []) (stepOf 1 [7, 8, 9])).2.trace =
      (start []).trace ++ [Event.recvfrom (start []).sockfd sizeof_buffer 0,
        Event.fwrite [0, 0, 0, 1], Event.fwrite [7], Event.fflush] :=
  (write_discipline Endian.little (start []) (stepOf 1 [7, 8, 9]) (by decide) (by decide)
    (bufferOf_length _ (by decide))).1

/-- C10, no terminal state. Once setup has succeeded the process is running
after any number of passes: every step handed to the loop is consumed by one
receive, no `close` and no `exit` is ever called. No pass leaves the loop or
changes the status, whatever the receive result; the loop goes on with the next
pass after each one; the results of the two `fwrite` and of `fflush` have no
influence on a pass; the loop is never left, so the code after it is not
reached; and for no outcome of the setup and no passes is the exit status 0. -/
theorem no_terminal_state (e : Endian) (env : SetupEnv) (buf0 : List Byte) (steps : List Step)
    (hok : env.ok) :
    (main e env buf0 steps).status = Status.running
      ∧ recvCount (main e env buf0 steps).trace = steps.length
      ∧ (∀ fd, Event.close fd ∉ (main e env buf0 steps).trace)
      ∧ (∀ c, Event.exit c ∉ (main e env buf0 steps).trace)
      ∧ (∀ s i, (loopBody e s i).1 ≠ Ctl.break_ ∧ (loopBody e s i).2.status = s.status)
      ∧ (∀ s i rest, captureLoop e s (i :: rest) = captureLoop e (loopBody e s i).2 rest)
      ∧ (∀ s l, (captureLoop e s l).1 = false)
      ∧ (∀ s (i : Step) a b c,
          loopBody e s { i with fwriteLenRet := a, fwriteFrameRet := b, fflushRet := c }
            = loopBody e s i)
      ∧ (∀ env1 buf1 steps1, (main e env1 buf1 steps1).status ≠ Status.exited 0) := by
  have hm := main_of_ok e env buf0 steps hok
  have hmem := mem_passes e env.socketRet steps
  refine ⟨hm.2.1, ?_, ?_, ?_, fun s i => ⟨loopBody_ctl e s i, loopBody_status e s i⟩, ?_, ?_,
    ?_, ?_⟩
  · rw [hm.1, recvCount_append, recvCount_passes]
    simp [recvCount, setupEvents]
  · intro fd hfd
    rw [hm.1, List.mem_append] at hfd
    rcases hfd with h | h
    · simp [setupEvents] at h
    · rcases hmem _ h with h1 | ⟨bs, h1⟩ | h1 <;> cases h1
  · intro c hc
    rw [hm.1, List.mem_append] at hc
    rcases hc with h | h
    · simp [setupEvents] at h
    · rcases hmem _ h with h1 | ⟨bs, h1⟩ | h1 <;> cases h1
  · intro s i rest
    rw [captureLoop_eq, captureLoop_eq]
    rfl
  · intro s l
    rw [captureLoop_eq]
  · intro s i a b c
    rfl
  · intro env1 buf1 steps1
    by_cases h1 : env1.ok
    · rw [(main_of_ok e env1 buf1 steps1 h1).2.1]
      intro h
      cases h
    · rw [(main_of_not_ok e env1 buf1 steps1 h1).1]
      intro h
      cases h

/-- Witness of C10: a failed receive, an empty frame and a frame, with failing
writes and flush reported for the frame. -/
theorem no_terminal_state_witness :
    (main Endian.little ⟨3, 0, 2, 0⟩ []
        [stepOf (-1) [], stepOf 0 [], ⟨2, bufferOf [9, 8], 0, 0, -1⟩]).status = Status.running :=
  (no_terminal_state Endian.little ⟨3, 0, 2, 0⟩ []
    [stepOf (-1) [], stepOf 0 [], ⟨2, bufferOf [9, 8], 0, 0, -1⟩] (by decide)).1

end RawSocket
